import Mathlib

/-!
Verification of the schema-matching and value-mapping engine of
custom_components/tuya_local/helpers/device_config.py (tuya-local).

Shallow embedding notes:
- Python runtime values that appear in device snapshots and in config
  documents are modelled by the inductive PVal: bool, int, float and str.
  Python floats are modelled as exact rationals; CPython prints the
  shortest round-tripping decimal repr of a float, which coincides with
  the exact decimal expansion for the small decimal constants that occur
  in config documents (the expansion is truncated at 17 digits here).
- A YAML field that is absent is modelled as Option.none.  An explicit
  YAML null value is not modelled (absence and null coincide), matching
  every use of dict.get in the source.
- Fallible Python code (raised exceptions) is modelled with Except PyErr.
- The mutually recursive get_value / get_values_to_set walk redirects and
  condition side effects with no cycle guard in the source; the embedding
  makes them total with an explicit fuel parameter, where running out of
  fuel yields PyErr.fuelExhausted.  Claims about termination are stated
  as: enough fuel never yields fuelExhausted.
- The source file loads YAML from disk and walks a config directory;
  those are I/O collaborators outside the engine (spec section 1), so the
  catalog is a List DeviceConfig parameter here and a Device is a lookup
  function from dps id to current raw value.
-/

namespace TuyaLocal

/-- Exact rational numbers standing in for Python floats.  Mathlib's own
Rat arithmetic is marked irreducible, which would keep concrete witness
computations from evaluating inside the kernel, so the embedding carries
its own plain numerator/denominator pairs; every value built by the
engine has a positive denominator and is normalized by construction, and
all comparisons are denominator-sign-robust cross multiplications. -/
structure PyRat : Type where
  n : ℤ
  d : ℤ
deriving DecidableEq, Repr

/-- Normalized fraction n/d for d positive or negative (but nonzero). -/
def qnorm (n d : ℤ) : PyRat :=
  let s : ℤ := if d < 0 then -1 else 1
  let n1 := s * n
  let d1 := s * d
  let g : ℤ := (Int.gcd n1 d1 : ℤ)
  if g = 0 then ⟨0, 1⟩ else ⟨n1.tdiv g, d1.tdiv g⟩

def qint (n : ℤ) : PyRat := ⟨n, 1⟩

def qmul (a b : PyRat) : PyRat := qnorm (a.n * b.n) (a.d * b.d)

def qdiv (a b : PyRat) : PyRat := qnorm (a.n * b.d) (a.d * b.n)

def qeqB (a b : PyRat) : Bool := a.n * b.d == b.n * a.d

def qltB (a b : PyRat) : Bool := decide (a.n * b.d < b.n * a.d)

def qIsZero (a : PyRat) : Bool := a.n == 0

/-- Scale a fraction by a power of ten (for float literal exponents). -/
def qscale10 (a : PyRat) (ex : ℤ) : PyRat :=
  if 0 ≤ ex then qnorm (a.n * (10 : ℤ) ^ ex.toNat) a.d
  else qnorm a.n (a.d * (10 : ℤ) ^ (-ex).toNat)

def qneg (a : PyRat) : PyRat := ⟨-a.n, a.d⟩

/-- Python values that occur in raw device snapshots and config documents. -/
inductive PVal : Type
  | pbool (b : Bool)
  | pint (n : ℤ)
  | pfloat (q : PyRat)
  | pstr (s : String)
deriving DecidableEq, Repr

/-- The four value types a dps declaration denotes; the source maps the
declared strings boolean, integer, string, float, bitfield to the Python
classes bool, int, str, float (bitfield also to int). -/
inductive PType : Type
  | tbool
  | tint
  | tfloat
  | tstr
deriving DecidableEq, Repr

/-- Numeric view of a Python value: bool and int and float all support
arithmetic and cross-type equality in Python (True == 1, 1 == 1.0). -/
def numQ : PVal → Option PyRat
  | .pbool b => some (qint (if b then 1 else 0))
  | .pint n => some (qint n)
  | .pfloat q => some q
  | .pstr _ => none

/-- Python isinstance(v, (int, float)): booleans count because bool is a
subclass of int. -/
def isNum (v : PVal) : Bool := (numQ v).isSome

def isFloatV : PVal → Bool
  | .pfloat _ => true
  | _ => false

/-- Integer content of a bool or int value (other cases unused). -/
def intv : PVal → ℤ
  | .pbool b => if b then 1 else 0
  | .pint n => n
  | _ => 0

/-- Python equality on values: numbers compare across bool/int/float,
strings compare to strings, everything else is unequal. -/
def pyEq (a b : PVal) : Bool :=
  match a, b with
  | .pstr s, .pstr t => s == t
  | _, _ =>
    match numQ a, numQ b with
    | some x, some y => qeqB x y
    | _, _ => false

/-- Python less-than: defined between numbers and between strings,
a TypeError (modelled as none) otherwise. -/
def pyLt (a b : PVal) : Option Bool :=
  match a, b with
  | .pstr s, .pstr t => some (decide (s < t))
  | _, _ =>
    match numQ a, numQ b with
    | some x, some y => some (qltB x y)
    | _, _ => none

/-- Python truthiness. -/
def truthy : PVal → Bool
  | .pbool b => b
  | .pint n => n != 0
  | .pfloat q => !(qIsZero q)
  | .pstr s => s != ""

/-- Decimal expansion digits of n/den (n < den), at most fuel digits. -/
def fracDigitsAux : Nat → Nat → Nat → List Char
  | 0, _, _ => []
  | _ + 1, 0, _ => []
  | fuelD + 1, n, den =>
    let n10 := n * 10
    Char.ofNat (48 + n10 / den) :: fracDigitsAux fuelD (n10 % den) den

/-- Rendering of a Python float (see the header note on float repr). -/
def floatStr (q : PyRat) : String :=
  let sign := if q.n < 0 then "-" else ""
  let n := q.n.natAbs
  let d := q.d.toNat
  let ip := n / d
  let fp := n % d
  if fp = 0 then sign ++ toString ip ++ ".0"
  else sign ++ toString ip ++ "." ++ String.mk (fracDigitsAux 17 fp d)

/-- Python str() of a value. -/
def pyStr : PVal → String
  | .pbool true => "True"
  | .pbool false => "False"
  | .pint n => toString n
  | .pfloat q => floatStr q
  | .pstr s => s

/-- Python str() where the argument may be None (absent dps value). -/
def strOfOpt : Option PVal → String
  | none => "None"
  | some v => pyStr v

/-- Python round() to an integer: nearest, ties to even.  Written on the
numerator and denominator directly: with f the floor of q, the remainder
q - f compares against one half by comparing twice its numerator with
the denominator. -/
def pyRound (q : PyRat) : ℤ :=
  let f := Int.fdiv q.n q.d
  let r2 := 2 * (q.n - f * q.d)
  if r2 < q.d then f
  else if q.d < r2 then f + 1
  else if f % 2 = 0 then f else f + 1

/-- Python int() truncation of a float: toward zero. -/
def ratTrunc (q : PyRat) : ℤ := Int.tdiv q.n q.d

def digitVal (c : Char) : Nat := c.toNat - 48

/-- Parse a nonempty all-digit character list. -/
def parseDigits : List Char → Option Nat
  | [] => none
  | cs =>
    if cs.all Char.isDigit then some (cs.foldl (fun a c => a * 10 + digitVal c) 0)
    else none

/-- Parse an optionally signed digit string. -/
def parseSigned (cs : List Char) : Option ℤ :=
  match cs with
  | '-' :: rest => (parseDigits rest).map (fun n => -(n : ℤ))
  | '+' :: rest => (parseDigits rest).map (fun n => (n : ℤ))
  | _ => (parseDigits cs).map (fun n => (n : ℤ))

def isSpaceChar (c : Char) : Bool :=
  c = ' ' || c = '\t' || c = '\n' || c = '\r' || c = '\x0b' || c = '\x0c'

/-- Python str.strip of surrounding whitespace, on the character list. -/
def pyTrim (cs : List Char) : List Char :=
  ((cs.dropWhile isSpaceChar).reverse.dropWhile isSpaceChar).reverse

/-- Python int(s) on a string: surrounding whitespace is trimmed, then an
optional sign and decimal digits.  (Underscore separators and non-ASCII
digits accepted by CPython are not modelled.) -/
def pyParseInt (s : String) : Option ℤ := parseSigned (pyTrim s.toList)

/-- Mantissa of a float literal: digits, optionally with one decimal
point; at least one digit overall. -/
def parseMantissa (cs : List Char) : Option PyRat :=
  let ip := cs.takeWhile Char.isDigit
  let rest := cs.drop ip.length
  let ipVal : ℤ := (ip.foldl (fun a c => a * 10 + digitVal c) 0 : ℕ)
  match rest with
  | [] => if ip.isEmpty then none else some (qint ipVal)
  | '.' :: fp =>
    if fp.all Char.isDigit && !(ip.isEmpty && fp.isEmpty) then
      let fpVal : ℤ := (fp.foldl (fun a c => a * 10 + digitVal c) 0 : ℕ)
      some (qnorm (ipVal * (10 : ℤ) ^ fp.length + fpVal) ((10 : ℤ) ^ fp.length))
    else none
  | _ => none

/-- Python float(s) on a string: optional sign, mantissa, optional
exponent.  (The inf and nan spellings are not modelled.) -/
def pyParseFloat (s : String) : Option PyRat :=
  let cs0 := pyTrim s.toList
  let signed : PyRat → PyRat :=
    match cs0 with
    | '-' :: _ => qneg
    | _ => id
  let cs1 :=
    match cs0 with
    | '-' :: rest => rest
    | '+' :: rest => rest
    | _ => cs0
  match cs1.findIdx? (fun c => c = 'e' || c = 'E') with
  | none => (parseMantissa cs1).map signed
  | some i =>
    match parseMantissa (cs1.take i), parseSigned (cs1.drop (i + 1)) with
    | some m, some ex => some (signed (qscale10 m ex))
    | _, _ => none

/-- Exceptions the engine can raise, plus the fuel marker of the shallow
embedding (see the header note). -/
inductive PyErr : Type
  | fuelExhausted
  | attrError
  | typeError
  | keyError
  | zeroDiv
  | castValueError
  | rangeError (propName : String) (attempted : PVal) (low : PVal) (high : PVal)
deriving DecidableEq, Repr

/-- Python type(value) conversion as used by the source: bool() never
fails, int()/float() of a non-parsing string raise ValueError (modelled
as Except.error). -/
def pyCast (t : PType) (v : PVal) : Except Unit PVal :=
  match t with
  | .tbool => .ok (.pbool (truthy v))
  | .tint =>
    match v with
    | .pbool b => .ok (.pint (if b then 1 else 0))
    | .pint n => .ok (.pint n)
    | .pfloat q => .ok (.pint (ratTrunc q))
    | .pstr s =>
      match pyParseInt s with
      | some n => .ok (.pint n)
      | none => .error ()
  | .tfloat =>
    match v with
    | .pstr s =>
      match pyParseFloat s with
      | some q => .ok (.pfloat q)
      | none => .error ()
    | _ => .ok (.pfloat ((numQ v).getD (qint 0)))
  | .tstr => .ok (.pstr (pyStr v))

def castOk (r : Except Unit PVal) : Bool :=
  match r with
  | .ok _ => true
  | .error _ => false

/-- Python string repetition s * n (empty for n below one). -/
def strRepeat (s : String) (n : ℤ) : String :=
  String.join (List.replicate n.toNat s)

/-- Python multiplication as reachable from the engine: number times
number (float if either side is a float), string repetition with an
int/bool, TypeError otherwise. -/
def pyMulV (a b : PVal) : Except PyErr PVal :=
  match numQ a, numQ b with
  | some x, some y =>
    if isFloatV a || isFloatV b then .ok (.pfloat (qmul x y)) else .ok (.pint (intv a * intv b))
  | _, _ =>
    match a, b with
    | .pstr s, .pint n => .ok (.pstr (strRepeat s n))
    | .pstr s, .pbool bb => .ok (.pstr (strRepeat s (if bb then 1 else 0)))
    | .pint n, .pstr s => .ok (.pstr (strRepeat s n))
    | .pbool bb, .pstr s => .ok (.pstr (strRepeat s (if bb then 1 else 0)))
    | _, _ => .error .typeError

/-- Python true division: always a float; ZeroDivisionError on a zero
divisor, TypeError on a non-number. -/
def pyDivV (a b : PVal) : Except PyErr PVal :=
  match numQ a, numQ b with
  | some x, some y => if qIsZero y then .error .zeroDiv else .ok (.pfloat (qdiv x y))
  | _, _ => .error .typeError

/-! Config data model.  Field names follow the YAML keys of the schema
documents ("value-redirect" becomes value_redirect, range min/max become
low/high to avoid clashing with the Lean functions of the same name). -/

/-- A declared range: the source checks that both the min and the max
keys are present before using a range dict. -/
structure RangeCfg : Type where
  low : Option PVal
  high : Option PVal
deriving DecidableEq, Repr

/-- An entry of a nested (second-order) mapping inside a condition. -/
structure NestedRule : Type where
  dps_val : Option PVal
  value : Option PVal
deriving DecidableEq, Repr

/-- A condition of a mapping rule.  The invalid flag defaults to False in
the source (cond.get("invalid", False)); icon fields are omitted, they
feed only the icon machinery which no claim touches. -/
structure Condition : Type where
  dps_val : Option PVal
  value : Option PVal
  invalid : Bool
  scale : Option PVal
  step : Option PVal
  value_redirect : Option String
  range : Option RangeCfg
  mapping : List NestedRule
deriving DecidableEq, Repr

/-- A mapping rule of a dps config.  conditions is an Option because the
source distinguishes m.get("conditions") being None from an empty list in
_active_condition. -/
structure MappingRule : Type where
  dps_val : Option PVal
  value : Option PVal
  scale : Option PVal
  step : Option PVal
  value_redirect : Option String
  constraint : Option String
  conditions : Option (List Condition)
  range : Option RangeCfg
deriving DecidableEq, Repr

/-- One dps (raw property) declaration.  id is already the str() of the
YAML id; type is the Python class resolved from the declared type string
(boolean, integer, string, float, bitfield). -/
structure DpsConfig : Type where
  id : String
  type : PType
  name : String
  readonly : Bool
  stringify : Bool
  hidden : Bool
  mapping : Option (List MappingRule)
  range : Option RangeCfg
deriving DecidableEq, Repr

/-- An entity config: its dps list in declaration order. -/
structure EntityConfig : Type where
  name : Option String
  dps : List DpsConfig
deriving DecidableEq, Repr

/-- A device schema: file name it was loaded from, friendly name,
optional legacy_type, primary entity and secondary entities. -/
structure DeviceConfig : Type where
  fname : String
  name : String
  legacy_type : Option String
  primary_entity : EntityConfig
  secondary_entities : List EntityConfig
deriving DecidableEq, Repr

/-- The device collaborator: get_property by dps id, none when absent. -/
abbrev Device : Type := String → Option PVal

/-- A raw dps snapshot (Python dict), as an association list with the
first binding of a key authoritative. -/
abbrev Dict : Type := List (String × PVal)

def lookupRaw (raw : Dict) (k : String) : Option PVal :=
  (raw.find? (fun kv => kv.1 == k)).map (fun kv => kv.2)

/-- Python dict[k] = v: replace the first binding in place, else append. -/
def dictSet : Dict → String → PVal → Dict
  | [], k, v => [(k, v)]
  | kv :: rest, k, v => if kv.1 = k then (k, v) :: rest else kv :: dictSet rest k v

/-- Python dict.update. -/
def dictUpdate (base other : Dict) : Dict :=
  other.foldl (fun acc kv => dictSet acc kv.1 kv.2) base

/-! The engine, translated from device_config.py. -/

/-- Python isinstance(v, t) for the four declared classes; a bool is an
instance of int because bool subclasses int. -/
def pyIsInstance : PType → PVal → Bool
  | .tbool, .pbool _ => true
  | .tint, .pint _ => true
  | .tint, .pbool _ => true
  | .tfloat, .pfloat _ => true
  | .tstr, .pstr _ => true
  | _, _ => false

/-- Source _typematch: a bool never matches an int declaration (worked
around explicitly), otherwise isinstance, otherwise a string that the
declared type can convert (except bool, which converts anything). -/
def typematch (t : PType) (v : PVal) : Bool :=
  match t, v with
  | .tint, .pbool _ => false
  | _, _ =>
    if pyIsInstance t v then true
    else
      match v with
      | .pstr s => if t == .tbool then false else castOk (pyCast t (.pstr s))
      | _ => false

/-- Whether a declared dps is present in the snapshot with a
type-compatible value (the repeated test of matches and
_entity_match_analyse; the source indexes dps[d.id] only after
establishing presence, so absence simply reads as a failed test). -/
def dpsPresentAndTyped (raw : Dict) (d : DpsConfig) : Bool :=
  match lookupRaw raw d.id with
  | some v => typematch d.type v
  | none => false

/-- Source TuyaDeviceConfig.matches (the source name matches is a
reserved token in Lean). -/
def configMatches (cfg : DeviceConfig) (raw : Dict) : Bool :=
  cfg.primary_entity.dps.all (dpsPresentAndTyped raw) &&
    cfg.secondary_entities.all (fun e => e.dps.all (dpsPresentAndTyped raw))

/-- Source TuyaDeviceConfig._entity_match_analyse: walks the entity dps,
failing (none) when a declared id is neither an unmatched nor an already
matched key or its value is type-incompatible; moves ids from keys to
matched. -/
def entityMatchAnalyse (raw : Dict) : List DpsConfig → List String → List String →
    Option (List String × List String)
  | [], keys, matched => some (keys, matched)
  | d :: rest, keys, matched =>
    if (!(keys.contains d.id) && !(matched.contains d.id)) || !(dpsPresentAndTyped raw d) then
      none
    else if keys.contains d.id then
      entityMatchAnalyse raw rest (keys.erase d.id) (matched ++ [d.id])
    else entityMatchAnalyse raw rest keys matched

/-- Runs _entity_match_analyse over a list of entities, threading the
keys/matched state. -/
def analyseEntities (raw : Dict) : List EntityConfig → List String → List String →
    Option (List String × List String)
  | [], keys, matched => some (keys, matched)
  | e :: rest, keys, matched =>
    match entityMatchAnalyse raw e.dps keys matched with
    | none => none
    | some km => analyseEntities raw rest km.1 km.2

/-- The keys of the snapshot that count toward the match score: all dict
keys, minus one occurrence of the literal key updated_at when present. -/
def scoringKeys (raw : Dict) : List String :=
  let keys0 := raw.map Prod.fst
  if keys0.contains "updated_at" then keys0.erase "updated_at" else keys0

/-- Source TuyaDeviceConfig.match_quality.  The final expression divides
by total; when total is zero that is a ZeroDivisionError in Python,
modelled as none. -/
def match_quality (cfg : DeviceConfig) (raw : Dict) : Option ℤ :=
  let keys1 := scoringKeys raw
  let total := keys1.length
  match entityMatchAnalyse raw cfg.primary_entity.dps keys1 [] with
  | none => some 0
  | some km =>
    match analyseEntities raw cfg.secondary_entities km.1 km.2 with
    | none => some 0
    | some kmf =>
      if total = 0 then none
      else some (pyRound ⟨((total : ℤ) - (kmf.1.length : ℤ)) * 100, (total : ℤ)⟩)

/-- Source TuyaEntityConfig.find_dps: first dps with the given display
name. -/
def find_dps (e : EntityConfig) (nm : String) : Option DpsConfig :=
  e.dps.find? (fun d => d.name == nm)

/-- Loop of _find_map_for_dps: remembers the latest rule without dps_val
as the default, returns the first rule whose dps_val compares stringwise
equal to the raw value. -/
def findMapForDpsGo (sval : String) : List MappingRule → Option MappingRule → Option MappingRule
  | [], dflt => dflt
  | m :: rest, dflt =>
    match m.dps_val with
    | none => findMapForDpsGo sval rest (some m)
    | some dv => if pyStr dv == sval then some m else findMapForDpsGo sval rest dflt

/-- Source TuyaDpsConfig._find_map_for_dps. -/
def findMapForDps (d : DpsConfig) (value : Option PVal) : Option MappingRule :=
  findMapForDpsGo (strOfOpt value) (d.mapping.getD []) none

/-- Whether a condition carries a value override Python-equal to the
requested value (the condition test of _find_map_for_value). -/
def condValueMatches (value : PVal) (c : Condition) : Bool :=
  match c.value with
  | some cv => pyEq cv value
  | none => false

/-- Whether a rule is returned by _find_map_for_value for the requested
value: its own value override compares stringwise equal, or one of its
conditions carries a Python-equal value override. -/
def ruleMatchesRequested (value : PVal) (m : MappingRule) : Bool :=
  (match m.value with
   | some mv => pyStr mv == pyStr value
   | none => false) ||
    (m.conditions.getD []).any (condValueMatches value)

/-- Loop of _find_map_for_value: remembers the latest rule without
dps_val as the default, returns the first rule matching the requested
value (own value stringwise, condition values by Python equality). -/
def findMapForValueGo (value : PVal) : List MappingRule → Option MappingRule → Option MappingRule
  | [], dflt => dflt
  | m :: rest, dflt =>
    let dflt2 := match m.dps_val with | none => some m | some _ => dflt
    if ruleMatchesRequested value m then some m
    else findMapForValueGo value rest dflt2

/-- Source TuyaDpsConfig._find_map_for_value. -/
def findMapForValue (d : DpsConfig) (value : PVal) : Option MappingRule :=
  findMapForValueGo value (d.mapping.getD []) none

/-- Source TuyaDpsConfig._active_condition: needs both a constraint name
and a conditions list; looks up the constraint dps by name, reads its
current raw value, and returns the first condition whose dps_val equals
that value (a condition without dps_val never equals a non-None value). -/
def activeCondition (e : EntityConfig) (m : MappingRule) (dev : Device) : Option Condition :=
  match m.constraint, m.conditions with
  | some cname, some conds =>
    (match find_dps e cname with
     | none => none
     | some cd =>
       match dev cd.id with
       | none => none
       | some cval =>
         conds.find? (fun c =>
           match c.dps_val with
           | some dv => pyEq cval dv
           | none => false))
  | _, _ => none

/-- The stringify pre-step of _map_from_dps: convert the raw value to the
declared type when possible, keeping it unconverted on ValueError. -/
def stringifiedValue (d : DpsConfig) (v : Option PVal) : Option PVal :=
  if d.stringify then
    match v with
    | none => none
    | some v0 =>
      match pyCast d.type v0 with
      | .ok v1 => some v1
      | .error _ => some v0
  else v

/-- The nested (second-order) mapping walk inside an active condition:
every entry whose dps_val prints like the current result replaces it. -/
def applyNestedMapping (ms : List NestedRule) (result : Option PVal) : Option PVal :=
  ms.foldl
    (fun res m =>
      if strOfOpt m.dps_val == strOfOpt res then
        match m.value with
        | some v => some v
        | none => res
      else res)
    result

/-- Redirect target after the condition override: the condition's
value-redirect when present, else the rule's. -/
def effRedirect (c : Option Condition) (m : MappingRule) : Option String :=
  match c with
  | some c0 =>
    match c0.value_redirect with
    | some r => some r
    | none => m.value_redirect
  | none => m.value_redirect

/-- Condition resolution step of _map_from_dps: none means the active
condition flags invalid (the property reads as null); otherwise the
effective redirect, scale and result after the condition overrides and
the nested mapping. -/
def readCondResolve (e : EntityConfig) (m : MappingRule) (dev : Device) (scale1 : PVal)
    (result1 : Option PVal) : Option (Option String × PVal × Option PVal) :=
  match activeCondition e m dev with
  | none => some (m.value_redirect, scale1, result1)
  | some c =>
    if c.invalid then none
    else
      let result2 := match c.value with | some v => some v | none => result1
      some (effRedirect (some c) m, c.scale.getD scale1, applyNestedMapping c.mapping result2)

/-- Final scaling of the read path: divide a numeric result when the
scale is not Python-equal to 1. -/
def mapScaleResult (scale : PVal) (result : Option PVal) : Except PyErr (Option PVal) :=
  match result with
  | some r =>
    if !(pyEq scale (.pint 1)) && isNum r then (pyDivV r scale).map some
    else .ok (some r)
  | none => .ok none

/-- Source TuyaDpsConfig._map_from_dps, with explicit fuel for the
unguarded redirect recursion.  The redirect looks the target up by name;
a missing target is the AttributeError the source would raise on None. -/
def mapFromDps : Nat → EntityConfig → DpsConfig → Option PVal → Device →
    Except PyErr (Option PVal)
  | 0, _, _, _, _ => .error .fuelExhausted
  | fuel + 1, e, d, value0, dev =>
    let value := stringifiedValue d value0
    match findMapForDps d value with
    | none => .ok value
    | some m =>
      let scale1 :=
        let s := m.scale.getD (.pint 1)
        if isNum s then s else .pint 1
      let result1 := match m.value with | some v => some v | none => value
      match readCondResolve e m dev scale1 result1 with
      | none => .ok none
      | some rsr =>
        match rsr.1 with
        | some rname =>
          (match find_dps e rname with
           | none => .error .attrError
           | some rd => mapFromDps fuel e rd (dev rd.id) dev)
        | none => mapScaleResult rsr.2.1 rsr.2.2

/-- Source TuyaDpsConfig.get_value. -/
def getValue (fuel : Nat) (e : EntityConfig) (d : DpsConfig) (dev : Device) :
    Except PyErr (Option PVal) :=
  mapFromDps fuel e d (dev d.id) dev

/-- A range dict qualifies only when both min and max keys are present. -/
def qualRange : Option RangeCfg → Option (PVal × PVal)
  | some r =>
    (match r.low, r.high with
     | some lo, some hi => some (lo, hi)
     | _, _ => none)
  | none => none

/-- Source TuyaDpsConfig.range: condition range first, then the rule
range, then the dps config range; each only when it has min and max. -/
def rangeOf (e : EntityConfig) (d : DpsConfig) (dev : Device) : Option (PVal × PVal) :=
  match findMapForDps d (dev d.id) with
  | some m =>
    (match qualRange (match activeCondition e m dev with | some c => c.range | none => none) with
     | some r => some r
     | none =>
       match qualRange m.range with
       | some r => some r
       | none => qualRange d.range)
  | none => qualRange d.range

/-- The condition side-effect write of get_values_to_set: recursively
compute the writes that put the constraint property at the condition's
dps_val.  Indexing mapping["constraint"] or cond["dps_val"] without the
key is the KeyError of the source; a missing constraint dps is the
AttributeError of calling a method on None. -/
def condSideEffect (recurse : DpsConfig → PVal → Except PyErr Dict) (e : EntityConfig)
    (m : MappingRule) (c : Condition) : Except PyErr Dict :=
  match m.constraint with
  | none => .error .keyError
  | some cname =>
    match find_dps e cname with
    | none => .error .attrError
    | some cd =>
      match c.dps_val with
      | none => .error .keyError
      | some dv => recurse cd dv

/-- The step quantization of the write path: step times the rounding of
result/step.  The result is already known numeric at the call site; a
non-numeric step (possible via a condition override) is the TypeError of
the source, a zero step its ZeroDivisionError. -/
def stepApply (stepv result : PVal) : Except PyErr PVal :=
  match numQ stepv, numQ result with
  | some sq, some rq =>
    if qIsZero sq then .error .zeroDiv
    else pyMulV stepv (.pint (pyRound (qdiv rq sq)))
  | _, _ => .error .typeError

/-- Outcome of the part of get_values_to_set before the range check:
either the rule redirected (the redirected property's full write map is
the final answer), or the side-effect writes so far plus the raw result
to be range-checked and coerced. -/
inductive PreOut : Type
  | redirected (out : Dict)
  | plain (dmap : Dict) (result : PVal)
deriving DecidableEq, Repr

/-- The scale and step application closing the mapped branch of
get_values_to_set (just before the range check): multiply a numeric
result by a scale not Python-equal to 1, then quantize a numeric result
to the step grid. -/
def gvtsFinish (scale : PVal) (step2 : Option PVal) (result1 : PVal) (dmap : Dict) :
    Except PyErr PreOut :=
  let afterScale : Except PyErr PVal :=
    if !(pyEq scale (.pint 1)) && isNum result1 then pyMulV result1 scale else .ok result1
  match afterScale with
  | .error err => .error err
  | .ok result2 =>
    match step2 with
    | some sv =>
      if isNum result2 then
        (match stepApply sv result2 with
         | .error err => .error err
         | .ok result3 => .ok (.plain dmap result3))
      else .ok (.plain dmap result2)
    | none => .ok (.plain dmap result2)

/-- The part of get_values_to_set from rule lookup up to (not including)
the range check: dps_val substitution, condition side effect, condition
overrides of scale/step/redirect, the redirect early return, scaling and
stepping. -/
def gvtsPre (recurse : DpsConfig → PVal → Except PyErr Dict) (e : EntityConfig)
    (d : DpsConfig) (dev : Device) (value : PVal) : Except PyErr PreOut :=
  match findMapForValue d value with
  | none => .ok (.plain [] value)
  | some m =>
    let scale1 :=
      let s := m.scale.getD (.pint 1)
      if isNum s then s else .pint 1
    let step1 : Option PVal :=
      match m.step with
      | some s => if isNum s then some s else none
      | none => none
    let result1 := match m.dps_val with | some dv => dv | none => value
    let c := activeCondition e m dev
    let sideEff : Except PyErr Dict :=
      match c with
      | some c0 =>
        if condValueMatches value c0 then condSideEffect recurse e m c0
        else .ok []
      | none => .ok []
    match sideEff with
    | .error err => .error err
    | .ok dmap =>
      let scale := match c with | some c0 => c0.scale.getD scale1 | none => scale1
      let step2 :=
        match c with
        | some c0 => (match c0.step with | some s => some s | none => step1)
        | none => step1
      match effRedirect c m with
      | some rname =>
        (match find_dps e rname with
         | none => .error .attrError
         | some rd => (recurse rd value).map .redirected)
      | none => gvtsFinish scale step2 result1 dmap

/-- The range validation of get_values_to_set: raises the ValueError
naming the property, the attempted (semantic) value and the bounds when
the computed raw result falls strictly outside them; comparing a
non-number against a bound is the TypeError of the source. -/
def rangeCheck (d : DpsConfig) (value : PVal) (r : Option (PVal × PVal)) (result : PVal) :
    Except PyErr Unit :=
  match r with
  | none => .ok ()
  | some lohi =>
    match pyLt result lohi.1 with
    | none => .error .typeError
    | some true => .error (.rangeError d.name value lohi.1 lohi.2)
    | some false =>
      match pyLt lohi.2 result with
      | none => .error .typeError
      | some true => .error (.rangeError d.name value lohi.1 lohi.2)
      | some false => .ok ()

/-- The final coercion of get_values_to_set to the declared type:
int(round(result)) (TypeError when result is a string), truthiness for
bool, float(result) (ValueError on an unparsable string), str(result). -/
def coerceToType (t : PType) (v : PVal) : Except PyErr PVal :=
  match t with
  | .tint =>
    (match numQ v with
     | some q => .ok (.pint (pyRound q))
     | none => .error .typeError)
  | .tbool => .ok (.pbool (truthy v))
  | .tfloat =>
    (match v with
     | .pstr s =>
       (match pyParseFloat s with
        | some q => .ok (.pfloat q)
        | none => .error .castValueError)
     | _ => .ok (.pfloat ((numQ v).getD (qint 0))))
  | .tstr => .ok (.pstr (pyStr v))

/-- Source TuyaDpsConfig.get_values_to_set, with explicit fuel for the
unguarded recursion through redirects and condition side effects. -/
def getValuesToSet : Nat → EntityConfig → DpsConfig → Device → PVal → Except PyErr Dict
  | 0, _, _, _, _ => .error .fuelExhausted
  | fuel + 1, e, d, dev, value =>
    match gvtsPre (fun rd v => getValuesToSet fuel e rd dev v) e d dev value with
    | .error err => .error err
    | .ok (.redirected out) => .ok out
    | .ok (.plain dmap result0) =>
      match rangeCheck d value (rangeOf e d dev) result0 with
      | .error err => .error err
      | .ok _ =>
        match coerceToType d.type result0 with
        | .error err => .error err
        | .ok result1 =>
          let result2 := if d.stringify then .pstr (pyStr result1) else result1
          .ok (dictSet dmap d.id result2)

/-! Legacy lookup and catalog-level helpers. -/

/-- Root part of os.path.splitext for a bare file name: cut at the last
dot, unless every character before that dot is itself a dot (leading
dots, as in hidden files, are not extension separators). -/
def splitextRoot (s : String) : String :=
  let cs := s.toList
  match (List.range cs.length).filter (fun i => cs.getD i ' ' = '.') |>.getLast? with
  | none => s
  | some i =>
    if (List.range i).any (fun j => cs.getD j ' ' ≠ '.') then String.mk (cs.take i) else s

/-- Source TuyaDeviceConfig.legacy_type: the declared legacy_type, or the
config file name without its extension when none is declared. -/
def legacyType (cfg : DeviceConfig) : String :=
  cfg.legacy_type.getD (splitextRoot cfg.fname)

/-- Source config_for_legacy_use: scan the catalog (the parsed configs of
available_configs, whose directory walk is I/O outside the engine) and
return the first whose legacy_type equals conf_type, else None. -/
def config_for_legacy_use (catalog : List DeviceConfig) (conf_type : String) :
    Option DeviceConfig :=
  catalog.find? (fun c => legacyType c == conf_type)

/-- All declared dps of a schema, primary entity first, then the
secondary entities in order. -/
def allDps (cfg : DeviceConfig) : List DpsConfig :=
  cfg.primary_entity.dps ++ (cfg.secondary_entities.map (fun e => e.dps)).flatten

/-! Definitions written from the specification text, for refinement
claims comparing the source behaviour against the spec wording. -/

/-- Native instance of a declared type in the sense of the spec type
rule, where Boolean and Integer are disjoint. -/
def nativeInstance : PType → PVal → Bool
  | .tbool, .pbool _ => true
  | .tint, .pint _ => true
  | .tfloat, .pfloat _ => true
  | .tstr, .pstr _ => true
  | _, _ => false

/-- The type-compatibility rule as the spec words it: a native instance
of the declared type, or a string, for a declared type other than
Boolean, that parses as that type. -/
def typematchSpec (t : PType) (v : PVal) : Bool :=
  nativeInstance t v ||
    (match v with
     | .pstr s => t != .tbool && castOk (pyCast t (.pstr s))
     | _ => false)

/-- matches as the spec words it: every declared property across the
primary entity and the secondary entities is present in the snapshot
with a type-compatible value. -/
def matchesSpec (cfg : DeviceConfig) (raw : Dict) : Bool :=
  (allDps cfg).all (dpsPresentAndTyped raw)

/-! Theorems. -/

def c5cond : Condition := ⟨some (.pint 5), some (.pint 1), false, none, none, none, none, []⟩

def c5rule : MappingRule :=
  ⟨some (.pstr "x"), none, none, none, none, some "c", some [c5cond], none⟩

def c5dps : DpsConfig := ⟨"9", .tstr, "p9", false, false, false, some [c5rule], none⟩

def c2cfg : DeviceConfig :=
  ⟨"w.yaml", "W", none, ⟨none, [⟨"1", .tbool, "p", false, false, false, none, none⟩]⟩, []⟩

def c2empty : DeviceConfig := ⟨"e.yaml", "E", none, ⟨none, []⟩, []⟩

def c9cfg : DeviceConfig := ⟨"foo.yaml", "Foo", none, ⟨none, []⟩, []⟩

def c6cond : Condition :=
  ⟨some (.pint 1), some (.pint 99), true, none, none, some "other", none, []⟩

def c6rule : MappingRule :=
  ⟨none, some (.pint 7), some (.pint 10), none, none, some "C", some [c6cond], none⟩

def c6main : DpsConfig := ⟨"20", .tint, "M", false, false, false, some [c6rule], none⟩

def c6constraint : DpsConfig := ⟨"21", .tint, "C", false, false, false, none, none⟩

def c6ent : EntityConfig := ⟨none, [c6main, c6constraint]⟩

def c6dev : Device := fun k =>
  if k = "20" then some (.pint 0) else if k = "21" then some (.pint 1) else none

def c3ruleA : MappingRule := ⟨none, none, none, none, some "B", none, none, none⟩

def c3A : DpsConfig := ⟨"10", .tint, "A", false, false, false, some [c3ruleA], none⟩

def c3B : DpsConfig := ⟨"11", .tint, "B", false, false, false, none, none⟩

def c3ent : EntityConfig := ⟨none, [c3A, c3B]⟩

def c3dev : Device := fun k =>
  if k = "10" then some (.pint 1) else if k = "11" then some (.pint 7) else none

def c4dps : DpsConfig :=
  ⟨"5", .tint, "bright", false, false, false, none, some ⟨some (.pint 0), some (.pint 100)⟩⟩

def c4ent : EntityConfig := ⟨none, [c4dps]⟩

def c1cfg : DeviceConfig :=
  ⟨"c1.yaml", "C1", none,
    ⟨none, [⟨"1", .tbool, "p1", false, false, false, none, none⟩,
      ⟨"2", .tint, "p2", false, false, false, none, none⟩]⟩, []⟩

def c1ua : DeviceConfig :=
  ⟨"ua.yaml", "UA", none,
    ⟨none, [⟨"updated_at", .tbool, "u", false, false, false, none, none⟩,
      ⟨"1", .tint, "q", false, false, false, none, none⟩]⟩, []⟩

def condRefs (c : Condition) : List String := c.value_redirect.toList

/-- All sibling-property references a mapping rule can follow at run
time: its value-redirect, its constraint (recursed into by the write
path's condition side effect), and its conditions' value-redirects. -/
def ruleRefs (m : MappingRule) : List String :=
  m.value_redirect.toList ++ m.constraint.toList ++ ((m.conditions.getD []).map condRefs).flatten

/-- All sibling-property references of a dps config. -/
def dpsRefs (d : DpsConfig) : List String := ((d.mapping.getD []).map ruleRefs).flatten

def c10A : DpsConfig :=
  ⟨"31", .tint, "XA", false, false, false,
    some [⟨none, none, none, none, some "XB", none, none, none⟩], none⟩

def c10B : DpsConfig := ⟨"32", .tint, "XB", false, false, false, none, none⟩

def c10ent : EntityConfig := ⟨none, [c10A, c10B]⟩

def c10dev : Device := fun k =>
  if k = "31" then some (.pint 1) else if k = "32" then some (.pint 7) else none

lemma all_flatten_dps (l : List EntityConfig) (p : DpsConfig → Bool) :
    ((l.map (fun e => e.dps)).flatten.all p) = l.all (fun e => e.dps.all p) := by
  induction l with
  | nil => rfl
  | cons e rest ih => simp [List.all_append, ih]

/-- C7: the source _typematch accepts a value for a declared type iff it
is a native instance of that type (with Boolean and Integer disjoint:
the source explicitly rejects a bool for an int declaration despite bool
subclassing int), or it is a string, the declared type is not Boolean,
and the string converts to that type; in particular the string 42
satisfies Integer, the string abc does not, and booleans never satisfy
Integer. -/
theorem C7_typematch_rule :
    (∀ (t : PType) (v : PVal), typematch t v = typematchSpec t v) ∧
      typematch .tint (.pstr "42") = true ∧
      typematch .tint (.pstr "abc") = false ∧
      typematch .tint (.pbool true) = false ∧
      typematch .tint (.pbool false) = false := by
  refine ⟨fun t v => ?_, by decide, by decide, by decide, by decide⟩
  cases t <;> cases v <;> rfl

/-- C8: the source matches(raw) is true iff every declared property of
the primary entity and of each secondary entity has its id present in
the snapshot with a type-compatible value (stated as equality with the
all-quantified spec-side reading; List.all is the conjunction over the
declared properties in order, so a single absent or incompatible
property makes it false). -/
theorem C8_matches_iff_all_present :
    ∀ (cfg : DeviceConfig) (raw : Dict), configMatches cfg raw = matchesSpec cfg raw := by
  intro cfg raw
  unfold configMatches matchesSpec allDps
  rw [List.all_append, all_flatten_dps]

lemma findMapForValueGo_eq (v : PVal) (ms : List MappingRule) (dflt : Option MappingRule) :
    findMapForValueGo v ms dflt =
      match ms.find? (ruleMatchesRequested v) with
      | some m => some m
      | none =>
        ms.foldl (fun acc m => if m.dps_val.isNone then some m else acc) dflt := by
  induction ms generalizing dflt with
  | nil => rfl
  | cons m rest ih =>
    cases hm : ruleMatchesRequested v m with
    | true =>
      rw [List.find?_cons_of_pos _ hm]
      simp [findMapForValueGo, hm]
    | false =>
      rw [List.find?_cons_of_neg _ (by simp [hm])]
      have hgo : findMapForValueGo v (m :: rest) dflt =
          findMapForValueGo v rest
            (match m.dps_val with | none => some m | some _ => dflt) := by
        simp [findMapForValueGo, hm]
      rw [hgo, ih]
      cases hdv : m.dps_val <;> simp [List.foldl, hdv]

/-- C5 (amended): the write-path rule lookup scans the mapping list in
order and returns the first rule whose own value override compares
stringwise equal to the requested value or one of whose conditions
carries a value override Python-equal to the requested value; when no
rule matches it returns the last rule lacking dps_val (the fold below
keeps overwriting the remembered default, so with at most one default
rule, as the data model intends, this is that rule). -/
theorem C5_find_rule_for_semantic :
    ∀ (d : DpsConfig) (v : PVal),
      findMapForValue d v =
        match (d.mapping.getD []).find? (ruleMatchesRequested v) with
        | some m => some m
        | none =>
          (d.mapping.getD []).foldl
            (fun acc m => if m.dps_val.isNone then some m else acc) none := by
  intro d v
  exact findMapForValueGo_eq v (d.mapping.getD []) none

/-- C5 counterexample: the single rule's condition carries the value
override integer 1, whose str() equals the str() of the requested string
1, so the claim's stringwise comparison would return that rule; the
source compares condition value overrides with Python equality, under
which the integer 1 and the string 1 differ, and the lookup falls back
to the (absent) default. -/
theorem C5_counterexample :
    findMapForValue c5dps (.pstr "1") = none ∧ pyStr (.pint 1) = pyStr (.pstr "1") := by
  exact ⟨by decide, by decide⟩

/-- C9 (amended): the legacy lookup returns the first schema in catalog
order whose effective legacy identifier equals the requested one, where
the effective identifier is the declared legacy_type or, when none is
declared, the schema's file name without its extension; it returns none
exactly when no schema has that effective identifier.  A schema that
declares no legacy alias can therefore still be returned, through its
file name. -/
theorem C9_legacy_lookup :
    ∀ (catalog : List DeviceConfig) (t : String),
      (config_for_legacy_use catalog t = none ↔ ∀ c ∈ catalog, legacyType c ≠ t) ∧
      (∀ c, config_for_legacy_use catalog t = some c →
        legacyType c = t ∧
          ∃ pre post, catalog = pre ++ c :: post ∧ ∀ c2 ∈ pre, legacyType c2 ≠ t) := by
  intro catalog t
  constructor
  · rw [config_for_legacy_use, List.find?_eq_none]
    constructor
    · intro h c hc
      have := h c hc
      simpa using this
    · intro h c hc
      simpa using h c hc
  · intro c h
    rw [config_for_legacy_use, List.find?_eq_some] at h
    obtain ⟨hp, pre, post, hcat, hpre⟩ := h
    refine ⟨by simpa using hp, pre, post, hcat, ?_⟩
    intro c2 hc2
    simpa using hpre c2 hc2

lemma entityMatchAnalyse_nil_keys (raw : Dict) (ds : List DpsConfig) :
    entityMatchAnalyse raw ds [] [] = if ds.isEmpty then some ([], []) else none := by
  cases ds <;> rfl

lemma analyseEntities_nil_keys (raw : Dict) (es : List EntityConfig) :
    analyseEntities raw es [] [] =
      if ((es.map (fun e => e.dps)).flatten).isEmpty then some ([], []) else none := by
  induction es with
  | nil => rfl
  | cons e rest ih =>
    rw [analyseEntities, entityMatchAnalyse_nil_keys]
    cases hd : e.dps with
    | nil => simpa [hd] using ih
    | cons d ds => simp [hd]

/-- C2 (amended): for every schema declaring at least one property, a
snapshot whose keys are at most the literal updated_at scores 0: the
first entity holding a declared property fails the analyse walk, and the
source returns 0 before the division is ever reached.  For a schema
declaring no properties at all the division by total does raise (see the
counterexample), so the claim's universal no-raise guarantee is cut down
to schemas with at least one declared property. -/
theorem C2_empty_snapshot_scores_zero :
    ∀ (cfg : DeviceConfig) (raw : Dict),
      (raw.map Prod.fst = [] ∨ raw.map Prod.fst = ["updated_at"]) →
      allDps cfg ≠ [] →
      match_quality cfg raw = some 0 := by
  intro cfg raw hraw hne
  have hkeys : scoringKeys raw = [] := by
    rcases hraw with h | h <;> simp [scoringKeys, h, List.erase]
  simp only [match_quality, hkeys]
  cases hp : cfg.primary_entity.dps with
  | cons d rest => rw [entityMatchAnalyse_nil_keys]; simp
  | nil =>
    have hflat : (cfg.secondary_entities.map (fun e => e.dps)).flatten ≠ [] := by
      intro h
      exact hne (by simp [allDps, hp, h])
    rw [entityMatchAnalyse_nil_keys]
    simp [analyseEntities_nil_keys, hflat, List.isEmpty_iff]

/-- C2 witness: a schema with one declared property scores 0 on the
snapshot holding only updated_at, with no division error. -/
theorem C2_witness : match_quality c2cfg [("updated_at", .pint 3)] = some 0 := by
  exact C2_empty_snapshot_scores_zero c2cfg _ (Or.inr (by decide)) (by decide)

/-- C2 counterexample: for a schema declaring no properties at all and an
empty snapshot, total is 0 and every analyse walk trivially succeeds, so
the source reaches round(0 * 100 / 0) and raises ZeroDivisionError
(modelled none) instead of returning the score 0 the claim requires for
every schema. -/
theorem C2_counterexample : match_quality c2empty [] = none := by decide

/-- C9 counterexample: a schema that declares no legacy alias is still
returned by the legacy lookup, because its effective legacy identifier
falls back to its file name without the extension; the claim says such a
schema is never returned. -/
theorem C9_counterexample :
    config_for_legacy_use [c9cfg] "foo" = some c9cfg ∧ c9cfg.legacy_type = none := by
  exact ⟨by decide, rfl⟩

/-- C9 witness: the characterization applied to a concrete two-schema
catalog where the second schema carries the declared alias. -/
theorem C9_witness :
    config_for_legacy_use [c9cfg, ⟨"bar.yaml", "Bar", some "kogan", ⟨none, []⟩, []⟩] "kogan" =
        some ⟨"bar.yaml", "Bar", some "kogan", ⟨none, []⟩, []⟩ ∧
      legacyType ⟨"bar.yaml", "Bar", some "kogan", ⟨none, []⟩, []⟩ = "kogan" := by
  refine ⟨by decide, ?_⟩
  exact ((C9_legacy_lookup [c9cfg, ⟨"bar.yaml", "Bar", some "kogan", ⟨none, []⟩, []⟩]
    "kogan").2 _ (by decide)).1

/-- C6: when the rule active for the current raw value has an active
condition flagged invalid, get_value returns null (Python None, the ok
none of the embedding), regardless of any value override, scale,
redirect or nested mapping the rule or the condition also carry (all of
them are universally quantified here inside m and c). -/
theorem C6_invalid_condition_reads_null :
    ∀ (fuel : Nat) (e : EntityConfig) (d : DpsConfig) (dev : Device) (m : MappingRule)
      (c : Condition),
      findMapForDps d (stringifiedValue d (dev d.id)) = some m →
      activeCondition e m dev = some c →
      c.invalid = true →
      getValue (fuel + 1) e d dev = .ok none := by
  intro fuel e d dev m c hm hc hinv
  simp only [getValue, mapFromDps, hm, readCondResolve, hc, hinv, if_true]

/-- C6 witness: the constraint property holds the condition's activation
value, the condition flags invalid, and the read yields null even though
the rule carries a value override and a scale and the condition a value
override and a redirect. -/
theorem C6_witness : getValue 1 c6ent c6main c6dev = .ok none := by
  exact C6_invalid_condition_reads_null 0 c6ent c6main c6dev c6rule c6cond (by decide)
    (by decide) rfl

/-- C3: a rule whose effective redirect (the condition's value-redirect
override when an active condition carries one, else the rule's own)
names an existing sibling property B delegates fully: the read equals
get_value of B (one fuel step pays for the delegation), and the write
equals get_values_to_set of B, with A contributing no entry of its own;
A's scale and value overrides never enter.  The read needs the active
condition not to flag invalid (that case returns null, claim C6), and
the write needs the condition side effect, which runs before the
redirect, not to raise. -/
theorem C3_redirect_delegation :
    ∀ (fuel : Nat) (e : EntityConfig) (A B : DpsConfig) (dev : Device) (rname : String),
      find_dps e rname = some B →
      ((∀ m, findMapForDps A (stringifiedValue A (dev A.id)) = some m →
          effRedirect (activeCondition e m dev) m = some rname →
          (∀ c, activeCondition e m dev = some c → c.invalid = false) →
          getValue (fuel + 1) e A dev = getValue fuel e B dev) ∧
        (∀ v m, findMapForValue A v = some m →
          effRedirect (activeCondition e m dev) m = some rname →
          (∀ c, activeCondition e m dev = some c → condValueMatches v c = true →
            ∃ out, condSideEffect (fun rd v2 => getValuesToSet fuel e rd dev v2) e m c =
              .ok out) →
          getValuesToSet (fuel + 1) e A dev v = getValuesToSet fuel e B dev v)) := by
  intro fuel e A B dev rname hB
  constructor
  · intro m hm hred hninv
    simp only [getValue, mapFromDps, hm]
    rcases hac : activeCondition e m dev with _ | c
    · rw [hac] at hred
      simp only [readCondResolve, hac, effRedirect] at hred ⊢
      simp [hred, hB]
    · rw [hac] at hred
      have hiv := hninv c hac
      simp only [readCondResolve, hac, hiv]
      simp [hred, hB]
  · intro v m hm hred hse
    simp only [getValuesToSet, gvtsPre, hm]
    rcases hac : activeCondition e m dev with _ | c
    · rw [hac] at hred
      simp only [hac, hred, hB]
      rcases hr : getValuesToSet fuel e B dev v with err | out <;> simp [hr, Except.map]
    · rw [hac] at hred
      cases hcv : condValueMatches v c with
      | false =>
        simp only [hac, hcv, hred, hB, Bool.false_eq_true, if_false]
        rcases hr : getValuesToSet fuel e B dev v with err | out <;> simp [hr, Except.map]
      | true =>
        obtain ⟨out0, hout⟩ := hse c hac hcv
        simp only [hac, hcv, if_true, hout, hred, hB]
        rcases hr : getValuesToSet fuel e B dev v with err | out <;> simp [hr, Except.map]

/-- C3 witness: property A redirects to sibling B; reading A equals
reading B (both the raw value of B), and writing through A produces
exactly B's write map, with no entry for A's own id. -/
theorem C3_witness :
    getValue 2 c3ent c3A c3dev = getValue 1 c3ent c3B c3dev ∧
      getValuesToSet 2 c3ent c3A c3dev (.pint 5) = getValuesToSet 1 c3ent c3B c3dev (.pint 5) ∧
      getValue 1 c3ent c3B c3dev = .ok (some (.pint 7)) ∧
      getValuesToSet 1 c3ent c3B c3dev (.pint 5) = .ok [("11", .pint 5)] := by
  have h0 : activeCondition c3ent c3ruleA c3dev = none := by decide
  refine ⟨?_, ?_, rfl, rfl⟩
  · refine (C3_redirect_delegation 1 c3ent c3A c3B c3dev "B" (by decide)).1 c3ruleA
      (by decide) (by decide) ?_
    intro c hc
    rw [h0] at hc
    exact Option.noConfusion hc
  · refine (C3_redirect_delegation 1 c3ent c3A c3B c3dev "B" (by decide)).2 (.pint 5) c3ruleA
      (by decide) (by decide) ?_
    intro c hc
    rw [h0] at hc
    exact Option.noConfusion hc

lemma coerceToType_error_shape (t : PType) (v : PVal) (err : PyErr) :
    coerceToType t v = .error err → err = .typeError ∨ err = .castValueError := by
  intro h
  cases t <;> cases v <;> simp [coerceToType, numQ] at h <;> try exact Or.inl h.symm
  rcases hp : pyParseFloat _ with _ | q <;> rw [hp] at h <;> simp at h
  exact Or.inr h.symm

/-- C4: when a declared range applies (resolved from the condition, the
rule, or the property, in that order) and the raw result computed before
the check (after dps_val substitution, scaling and stepping, in the
non-redirected case) falls strictly below the min bound or strictly
above the max bound, get_values_to_set raises the range ValueError
naming the property, the attempted semantic value, and both bounds, and
returns no map at all; when the result sits within the bounds, endpoints
included, no range violation is raised. -/
theorem C4_range_violation :
    ∀ (fuel : Nat) (e : EntityConfig) (d : DpsConfig) (dev : Device) (value : PVal)
      (dmap : Dict) (result lo hi : PVal),
      gvtsPre (fun rd v => getValuesToSet fuel e rd dev v) e d dev value =
        .ok (.plain dmap result) →
      rangeOf e d dev = some (lo, hi) →
      ((pyLt result lo = some true ∨
          (pyLt result lo = some false ∧ pyLt hi result = some true)) →
        getValuesToSet (fuel + 1) e d dev value = .error (.rangeError d.name value lo hi)) ∧
      ((pyLt result lo = some false ∧ pyLt hi result = some false) →
        ∀ nm av l2 h2, getValuesToSet (fuel + 1) e d dev value ≠
          .error (.rangeError nm av l2 h2)) := by
  intro fuel e d dev value dmap result lo hi hpre hr
  constructor
  · intro hout
    rcases hout with h1 | ⟨h1, h2⟩
    · simp [getValuesToSet, hpre, rangeCheck, hr, h1]
    · simp [getValuesToSet, hpre, rangeCheck, hr, h1, h2]
  · rintro ⟨h1, h2⟩ nm av l2 h2'
    simp only [getValuesToSet, hpre, rangeCheck, hr, h1, h2]
    rcases hco : coerceToType d.type result with err | val
    · rcases coerceToType_error_shape d.type result err hco with h | h <;> simp [h]
    · simp

/-- C4 witness: writing 150 against range min 0 max 100 fails with the
range ValueError carrying the property name, the attempted value and the
bounds, and writing the max endpoint 100 itself succeeds. -/
theorem C4_witness :
    getValuesToSet 1 c4ent c4dps (fun _ => none) (.pint 150) =
        .error (.rangeError "bright" (.pint 150) (.pint 0) (.pint 100)) ∧
      getValuesToSet 1 c4ent c4dps (fun _ => none) (.pint 100) = .ok [("5", .pint 100)] := by
  constructor
  · exact (C4_range_violation 0 c4ent c4dps (fun _ => none) (.pint 150) [] (.pint 150)
      (.pint 0) (.pint 100) rfl rfl).1 (Or.inr ⟨by decide, by decide⟩)
  · rfl

lemma entityMatchAnalyse_success (raw : Dict) :
    ∀ (ds : List DpsConfig) (keys matched : List String),
      keys.Nodup →
      (∀ d ∈ ds, dpsPresentAndTyped raw d = true) →
      (∀ d ∈ ds, d.id ∈ keys ∨ d.id ∈ matched) →
      (∀ x ∈ matched, x ∉ keys) →
      ∃ mf,
        entityMatchAnalyse raw ds keys matched =
          some (keys.filter (fun k => !(decide (k ∈ ds.map DpsConfig.id))), mf) ∧
        (∀ x, (x ∈ keys.filter (fun k => !(decide (k ∈ ds.map DpsConfig.id))) ∨ x ∈ mf) ↔
          (x ∈ keys ∨ x ∈ matched)) ∧
        (∀ x ∈ mf, x ∉ keys.filter (fun k => !(decide (k ∈ ds.map DpsConfig.id)))) := by
  intro ds
  induction ds with
  | nil =>
    intro keys matched hnd hpres hmem hdisj
    have hf : keys.filter (fun k => !(decide (k ∈ ([] : List DpsConfig).map DpsConfig.id))) =
        keys := by
      simp
    refine ⟨matched, ?_, ?_, ?_⟩
    · rw [hf]; rfl
    · intro x; rw [hf]
    · intro x hx; rw [hf]; exact hdisj x hx
  | cons d rest ih =>
    intro keys matched hnd hpres hmem hdisj
    have hdp : dpsPresentAndTyped raw d = true := hpres d (by simp)
    have hdm : d.id ∈ keys ∨ d.id ∈ matched := hmem d (by simp)
    by_cases hk : d.id ∈ keys
    · have hstep : entityMatchAnalyse raw (d :: rest) keys matched =
          entityMatchAnalyse raw rest (keys.erase d.id) (matched ++ [d.id]) := by
        simp [entityMatchAnalyse, hk, hdp]
      have hnd2 : (keys.erase d.id).Nodup := hnd.erase d.id
      have hpres2 : ∀ d2 ∈ rest, dpsPresentAndTyped raw d2 = true :=
        fun d2 h2 => hpres d2 (by simp [h2])
      have hmem2 : ∀ d2 ∈ rest, d2.id ∈ keys.erase d.id ∨ d2.id ∈ matched ++ [d.id] := by
        intro d2 h2
        rcases hmem d2 (by simp [h2]) with h | h
        · by_cases he : d2.id = d.id
          · right; simp [he]
          · left; exact (List.mem_erase_of_ne he).mpr h
        · right; simp [h]
      have hdisj2 : ∀ x ∈ matched ++ [d.id], x ∉ keys.erase d.id := by
        intro x hx
        rcases List.mem_append.mp hx with h | h
        · intro hc; exact hdisj x h (List.mem_of_mem_erase hc)
        · simp only [List.mem_singleton] at h
          subst h
          intro hc
          exact absurd ((hnd.mem_erase_iff).mp hc).1 (by simp)
      obtain ⟨mf, heq, hiff, hdj⟩ :=
        ih (keys.erase d.id) (matched ++ [d.id]) hnd2 hpres2 hmem2 hdisj2
      have hfil : (keys.erase d.id).filter (fun k => !(decide (k ∈ rest.map DpsConfig.id))) =
          keys.filter (fun k => !(decide (k ∈ (d :: rest).map DpsConfig.id))) := by
        rw [hnd.erase_eq_filter d.id, List.filter_filter]
        apply List.filter_congr
        intro x hx
        by_cases hxe : x = d.id <;> simp [hxe]
      refine ⟨mf, ?_, ?_, ?_⟩
      · rw [hstep, heq, hfil]
      · intro x
        rw [← hfil]
        rw [hiff x]
        constructor
        · intro h3
          rcases h3 with h3 | h3
          · exact Or.inl (List.mem_of_mem_erase h3)
          · rcases List.mem_append.mp h3 with h4 | h4
            · exact Or.inr h4
            · simp only [List.mem_singleton] at h4
              subst h4
              exact Or.inl hk
        · intro h3
          rcases h3 with h3 | h3
          · by_cases he : x = d.id
            · right; simp [he]
            · left; exact (List.mem_erase_of_ne he).mpr h3
          · right; exact List.mem_append.mpr (Or.inl h3)
      · intro x hx
        rw [← hfil]
        exact hdj x hx
    · have hm2 : d.id ∈ matched := by
        rcases hdm with h | h
        · exact absurd h hk
        · exact h
      have hstep : entityMatchAnalyse raw (d :: rest) keys matched =
          entityMatchAnalyse raw rest keys matched := by
        simp [entityMatchAnalyse, hk, hdp, hm2]
      have hpres2 : ∀ d2 ∈ rest, dpsPresentAndTyped raw d2 = true :=
        fun d2 h2 => hpres d2 (by simp [h2])
      have hmem2 : ∀ d2 ∈ rest, d2.id ∈ keys ∨ d2.id ∈ matched :=
        fun d2 h2 => hmem d2 (by simp [h2])
      obtain ⟨mf, heq, hiff, hdj⟩ := ih keys matched hnd hpres2 hmem2 hdisj
      have hfil : keys.filter (fun k => !(decide (k ∈ rest.map DpsConfig.id))) =
          keys.filter (fun k => !(decide (k ∈ (d :: rest).map DpsConfig.id))) := by
        apply List.filter_congr
        intro x hx
        have hne2 : x ≠ d.id := fun he => hk (he ▸ hx)
        simp [hne2]
      exact ⟨mf, by rw [hstep, heq, hfil], fun x => by rw [← hfil]; exact hiff x,
        fun x hx => by rw [← hfil]; exact hdj x hx⟩

lemma analyseEntities_success (raw : Dict) :
    ∀ (es : List EntityConfig) (keys matched : List String),
      keys.Nodup →
      (∀ d ∈ (es.map (fun e => e.dps)).flatten, dpsPresentAndTyped raw d = true) →
      (∀ d ∈ (es.map (fun e => e.dps)).flatten, d.id ∈ keys ∨ d.id ∈ matched) →
      (∀ x ∈ matched, x ∉ keys) →
      ∃ mf,
        analyseEntities raw es keys matched =
          some (keys.filter
            (fun k => !(decide (k ∈ ((es.map (fun e => e.dps)).flatten).map DpsConfig.id))),
            mf) ∧
        (∀ x, (x ∈ keys.filter
            (fun k => !(decide (k ∈ ((es.map (fun e => e.dps)).flatten).map DpsConfig.id))) ∨
            x ∈ mf) ↔ (x ∈ keys ∨ x ∈ matched)) := by
  intro es
  induction es with
  | nil =>
    intro keys matched hnd hpres hmem hdisj
    have hf : keys.filter (fun k =>
        !(decide (k ∈ ((([] : List EntityConfig).map (fun e => e.dps)).flatten).map
          DpsConfig.id))) = keys := by
      simp
    exact ⟨matched, by rw [hf]; rfl, fun x => by rw [hf]⟩
  | cons e rest ih =>
    intro keys matched hnd hpres hmem hdisj
    have hpres1 : ∀ d ∈ e.dps, dpsPresentAndTyped raw d = true := by
      intro d hd
      exact hpres d (by simp [hd])
    have hmem1 : ∀ d ∈ e.dps, d.id ∈ keys ∨ d.id ∈ matched := by
      intro d hd
      exact hmem d (by simp [hd])
    obtain ⟨mf1, heq1, hiff1, hdj1⟩ :=
      entityMatchAnalyse_success raw e.dps keys matched hnd hpres1 hmem1 hdisj
    have hstep : analyseEntities raw (e :: rest) keys matched =
        analyseEntities raw rest
          (keys.filter (fun k => !(decide (k ∈ e.dps.map DpsConfig.id)))) mf1 := by
      simp [analyseEntities, heq1]
    have hnd1 : (keys.filter (fun k => !(decide (k ∈ e.dps.map DpsConfig.id)))).Nodup :=
      hnd.filter _
    have hpres2 : ∀ d ∈ (rest.map (fun e => e.dps)).flatten,
        dpsPresentAndTyped raw d = true := by
      intro d hd
      exact hpres d (by simp [hd])
    have hmem2 : ∀ d ∈ (rest.map (fun e => e.dps)).flatten,
        d.id ∈ keys.filter (fun k => !(decide (k ∈ e.dps.map DpsConfig.id))) ∨ d.id ∈ mf1 := by
      intro d hd
      exact (hiff1 d.id).mpr (hmem d (by simp [hd]))
    obtain ⟨mf2, heq2, hiff2⟩ := ih _ mf1 hnd1 hpres2 hmem2 hdj1
    have hfil : (keys.filter (fun k => !(decide (k ∈ e.dps.map DpsConfig.id)))).filter
          (fun k => !(decide (k ∈ ((rest.map (fun e => e.dps)).flatten).map DpsConfig.id))) =
        keys.filter (fun k =>
          !(decide (k ∈ (((e :: rest).map (fun e => e.dps)).flatten).map DpsConfig.id))) := by
      rw [List.filter_filter]
      apply List.filter_congr
      intro x hx
      simp [List.mem_append, not_or, Bool.and_comm]
    refine ⟨mf2, ?_, ?_⟩
    · rw [hstep, heq2, hfil]
    · intro x
      rw [← hfil]
      rw [hiff2 x]
      exact hiff1 x

lemma filter_not_length (l : List String) (p : String → Bool) :
    (l.filter p).length + (l.filter (fun k => !(p k))).length = l.length := by
  induction l with
  | nil => rfl
  | cons a t ih => cases hp : p a <;> simp [List.filter, hp] <;> omega

lemma filter_mem_length (keys ids : List String) (hnd : keys.Nodup)
    (hsub : ∀ i ∈ ids, i ∈ keys) :
    (keys.filter (fun k => decide (k ∈ ids))).length = ids.dedup.length := by
  have h1 : (keys.filter (fun k => decide (k ∈ ids))).Nodup := hnd.filter _
  have h2 : (keys.filter (fun k => decide (k ∈ ids))).toFinset = ids.toFinset := by
    ext x
    simp only [List.mem_toFinset, List.mem_filter, decide_eq_true_eq]
    exact ⟨fun h => h.2, fun h => ⟨hsub x h, h⟩⟩
  calc (keys.filter (fun k => decide (k ∈ ids))).length
      = (keys.filter (fun k => decide (k ∈ ids))).toFinset.card :=
        (List.toFinset_card_of_nodup h1).symm
    _ = ids.toFinset.card := by rw [h2]
    _ = ids.dedup.length := List.card_toFinset ids

lemma scoringKeys_nodup (raw : Dict) (h : (raw.map Prod.fst).Nodup) :
    (scoringKeys raw).Nodup := by
  unfold scoringKeys
  by_cases hc : "updated_at" ∈ raw.map Prod.fst <;> simp [hc]
  · exact h.erase _
  · exact h

lemma mem_scoringKeys (raw : Dict) (h : (raw.map Prod.fst).Nodup) (x : String) :
    x ∈ scoringKeys raw ↔ x ∈ raw.map Prod.fst ∧ x ≠ "updated_at" := by
  unfold scoringKeys
  by_cases hc : "updated_at" ∈ raw.map Prod.fst
  · have hcb : (raw.map Prod.fst).contains "updated_at" = true := by
      simpa using hc
    rw [if_pos hcb, h.mem_erase_iff]
    tauto
  · have hcb : (raw.map Prod.fst).contains "updated_at" = false := by
      simpa using hc
    rw [if_neg (by rw [hcb]; exact Bool.false_ne_true)]
    constructor
    · intro hx
      exact ⟨hx, fun he => hc (he ▸ hx)⟩
    · exact fun hx => hx.1

lemma lookupRaw_mem (raw : Dict) (k : String) (v : PVal) :
    lookupRaw raw k = some v → k ∈ raw.map Prod.fst := by
  unfold lookupRaw
  intro h
  rcases hf : raw.find? (fun kv => kv.1 == k) with _ | kv
  · rw [hf] at h; simp at h
  · have h1 : kv ∈ raw := List.mem_of_find?_eq_some hf
    have h2 : (kv.1 == k) = true := @List.find?_some _ (fun kv => kv.1 == k) kv raw hf
    exact List.mem_map.mpr ⟨kv, h1, by simpa using h2⟩

/-- C1 (amended): for every schema none of whose declared property ids is
the literal updated_at, and every snapshot (unique keys, as in a dict)
holding every declared property id with a type-compatible value,
match_quality scores round(matchedKeys * 100 / total): matchedKeys the
number of distinct declared ids (one entity's id shared with another is
counted once), total the snapshot keys minus the literal updated_at.
The second conjunct is the claim's own zero example: a single missing
declared property voids the whole schema, score 0, no partial credit. -/
theorem C1_match_quality_formula :
    (∀ (cfg : DeviceConfig) (raw : Dict),
      (raw.map Prod.fst).Nodup →
      (∀ d ∈ allDps cfg, dpsPresentAndTyped raw d = true) →
      (∀ d ∈ allDps cfg, d.id ≠ "updated_at") →
      allDps cfg ≠ [] →
      match_quality cfg raw =
        some (pyRound ⟨(((allDps cfg).map DpsConfig.id).dedup.length : ℤ) * 100,
          ((scoringKeys raw).length : ℤ)⟩)) ∧
    match_quality c1cfg [("1", .pbool true), ("3", .pint 9)] = some 0 := by
  constructor
  · intro cfg raw hnd0 hpres hnua hne
    have hndK : (scoringKeys raw).Nodup := scoringKeys_nodup raw hnd0
    have hidmem : ∀ d ∈ allDps cfg, d.id ∈ scoringKeys raw := by
      intro d hd
      have hp := hpres d hd
      unfold dpsPresentAndTyped at hp
      rcases hl : lookupRaw raw d.id with _ | v
      · rw [hl] at hp; simp at hp
      · exact (mem_scoringKeys raw hnd0 d.id).mpr
          ⟨lookupRaw_mem raw d.id v hl, hnua d hd⟩
    have hpres1 : ∀ d ∈ cfg.primary_entity.dps, dpsPresentAndTyped raw d = true := by
      intro d hd
      exact hpres d (by simp [allDps, hd])
    have hmem1 : ∀ d ∈ cfg.primary_entity.dps,
        d.id ∈ scoringKeys raw ∨ d.id ∈ ([] : List String) := by
      intro d hd
      exact Or.inl (hidmem d (by simp [allDps, hd]))
    obtain ⟨mf1, heq1, hiff1, hdj1⟩ := entityMatchAnalyse_success raw cfg.primary_entity.dps
      (scoringKeys raw) [] hndK hpres1 hmem1 (by intro x hx; simp at hx)
    have hpres2 : ∀ d ∈ (cfg.secondary_entities.map (fun e => e.dps)).flatten,
        dpsPresentAndTyped raw d = true := by
      intro d hd
      exact hpres d (by simp [allDps, List.mem_append, hd])
    have hmem2 : ∀ d ∈ (cfg.secondary_entities.map (fun e => e.dps)).flatten,
        d.id ∈ (scoringKeys raw).filter
          (fun k => !(decide (k ∈ cfg.primary_entity.dps.map DpsConfig.id))) ∨ d.id ∈ mf1 := by
      intro d hd
      exact (hiff1 d.id).mpr
        (Or.inl (hidmem d (by simp [allDps, List.mem_append, hd])))
    obtain ⟨mf2, heq2, hiff2⟩ := analyseEntities_success raw cfg.secondary_entities _ mf1
      (hndK.filter _) hpres2 hmem2 hdj1
    have hKne : (scoringKeys raw).length ≠ 0 := by
      obtain ⟨d, hd⟩ := List.exists_mem_of_ne_nil _ hne
      have hdK := hidmem d hd
      intro h0
      rw [List.length_eq_zero] at h0
      rw [h0] at hdK
      simp at hdK
    have hcomb : ((scoringKeys raw).filter
          (fun k => !(decide (k ∈ cfg.primary_entity.dps.map DpsConfig.id)))).filter
          (fun k =>
            !(decide (k ∈ ((cfg.secondary_entities.map (fun e => e.dps)).flatten).map
              DpsConfig.id))) =
        (scoringKeys raw).filter
          (fun k => !(decide (k ∈ (allDps cfg).map DpsConfig.id))) := by
      rw [List.filter_filter]
      apply List.filter_congr
      intro x hx
      simp [allDps, List.mem_append, not_or, Bool.and_comm]
    have hsub : ∀ i ∈ (allDps cfg).map DpsConfig.id, i ∈ scoringKeys raw := by
      intro i hi
      obtain ⟨d, hd, hdi⟩ := List.mem_map.mp hi
      exact hdi ▸ hidmem d hd
    have hcount : ((scoringKeys raw).filter
          (fun k => decide (k ∈ (allDps cfg).map DpsConfig.id))).length =
        ((allDps cfg).map DpsConfig.id).dedup.length :=
      filter_mem_length _ _ hndK hsub
    have hlen := filter_not_length (scoringKeys raw)
      (fun k => decide (k ∈ (allDps cfg).map DpsConfig.id))
    simp only [match_quality, heq1, heq2, hcomb]
    rw [if_neg hKne]
    have harith : ((scoringKeys raw).length : ℤ) -
        (((scoringKeys raw).filter
          (fun k => !(decide (k ∈ (allDps cfg).map DpsConfig.id)))).length : ℤ) =
        (((allDps cfg).map DpsConfig.id).dedup.length : ℤ) := by
      rw [← hcount]
      omega
    rw [harith]
  · decide

/-- C1 counterexample: a schema declaring the property id updated_at,
with a snapshot holding every declared id with a type-compatible value.
The claim's formula gives round(2 * 100 / 1) = 200 (or 100 if the
matched count is also read as excluding updated_at), but the source
scores 0: updated_at was removed from the scoring keys before the
analyse walk, so the declared id is neither among the unmatched nor the
matched keys and the whole schema is voided. -/
theorem C1_counterexample :
    (allDps c1ua).all (dpsPresentAndTyped [("updated_at", .pbool true), ("1", .pint 5)]) =
        true ∧
      match_quality c1ua [("updated_at", .pbool true), ("1", .pint 5)] = some 0 ∧
      pyRound ⟨(((allDps c1ua).map DpsConfig.id).dedup.length : ℤ) * 100,
        ((scoringKeys [("updated_at", .pbool true), ("1", .pint 5)]).length : ℤ)⟩ = 200 := by
  refine ⟨by decide, by decide, by decide⟩

/-- C1 witness: the claim's own positive example, schema declaring
properties 1 and 2, snapshot holding both plus updated_at, scoring
round(2 * 100 / 2) = 100. -/
theorem C1_witness :
    match_quality c1cfg [("1", .pbool true), ("2", .pint 5), ("updated_at", .pint 123)] =
      some 100 := by
  have h := C1_match_quality_formula.1 c1cfg
    [("1", .pbool true), ("2", .pint 5), ("updated_at", .pint 123)]
    (by decide) (by decide) (by decide) (by decide)
  rw [h]
  decide

lemma findMapForDpsGo_mem (sval : String) :
    ∀ (ms : List MappingRule) (dflt : Option MappingRule) (m : MappingRule),
      findMapForDpsGo sval ms dflt = some m → m ∈ ms ∨ dflt = some m := by
  intro ms
  induction ms with
  | nil => intro dflt m h; exact Or.inr h
  | cons m0 rest ih =>
    intro dflt m h
    rcases h0 : m0.dps_val with _ | dv
    · simp only [findMapForDpsGo, h0] at h
      rcases ih (some m0) m h with h1 | h1
      · exact Or.inl (List.mem_cons_of_mem _ h1)
      · exact Or.inl (by simp [Option.some_inj.mp h1])
    · simp only [findMapForDpsGo, h0] at h
      by_cases hb : pyStr dv == sval
      · rw [if_pos hb] at h
        exact Or.inl (by simp [Option.some_inj.mp h])
      · rw [if_neg hb] at h
        rcases ih dflt m h with h1 | h1
        · exact Or.inl (List.mem_cons_of_mem _ h1)
        · exact Or.inr h1

lemma findMapForDps_mem (d : DpsConfig) (value : Option PVal) (m : MappingRule) :
    findMapForDps d value = some m → m ∈ d.mapping.getD [] := by
  intro h
  rcases findMapForDpsGo_mem (strOfOpt value) (d.mapping.getD []) none m h with h1 | h1
  · exact h1
  · exact Option.noConfusion h1

lemma foldl_default_mem :
    ∀ (ms : List MappingRule) (dflt : Option MappingRule) (m : MappingRule),
      ms.foldl (fun acc m0 => if m0.dps_val.isNone then some m0 else acc) dflt = some m →
      m ∈ ms ∨ dflt = some m := by
  intro ms
  induction ms with
  | nil => intro dflt m h; exact Or.inr h
  | cons m0 rest ih =>
    intro dflt m h
    simp only [List.foldl] at h
    rcases ih _ m h with h1 | h1
    · exact Or.inl (List.mem_cons_of_mem _ h1)
    · by_cases hb : m0.dps_val.isNone
      · rw [if_pos hb] at h1
        exact Or.inl (by simp [Option.some_inj.mp h1])
      · rw [if_neg hb] at h1
        exact Or.inr h1

lemma findMapForValue_mem (d : DpsConfig) (value : PVal) (m : MappingRule) :
    findMapForValue d value = some m → m ∈ d.mapping.getD [] := by
  intro h0
  have h : findMapForValueGo value (d.mapping.getD []) none = some m := h0
  rw [findMapForValueGo_eq] at h
  rcases hf : (d.mapping.getD []).find? (ruleMatchesRequested value) with _ | m2
  · rw [hf] at h
    rcases foldl_default_mem (d.mapping.getD []) none m h with h1 | h1
    · exact h1
    · exact Option.noConfusion h1
  · rw [hf] at h
    rw [← Option.some_inj.mp h]
    exact List.mem_of_find?_eq_some hf

lemma activeCondition_mem (e : EntityConfig) (m : MappingRule) (dev : Device) (c : Condition) :
    activeCondition e m dev = some c → c ∈ m.conditions.getD [] := by
  intro h
  unfold activeCondition at h
  rcases hcs : m.constraint with _ | cname <;> rw [hcs] at h <;>
    rcases hcl : m.conditions with _ | conds <;> rw [hcl] at h
  · exact Option.noConfusion h
  · exact Option.noConfusion h
  · exact Option.noConfusion h
  · have h2 : (match find_dps e cname with
        | none => (none : Option Condition)
        | some cd =>
          match dev cd.id with
          | none => none
          | some cval =>
            conds.find? (fun c0 =>
              match c0.dps_val with
              | some dv => pyEq cval dv
              | none => false)) = some c := h
    rcases hfd : find_dps e cname with _ | cd <;> rw [hfd] at h2
    · exact Option.noConfusion h2
    · have h3 : (match dev cd.id with
          | none => (none : Option Condition)
          | some cval =>
            conds.find? (fun c0 =>
              match c0.dps_val with
              | some dv => pyEq cval dv
              | none => false)) = some c := h2
      rcases hdv : dev cd.id with _ | cval <;> rw [hdv] at h3
      · exact Option.noConfusion h3
      · simpa using List.mem_of_find?_eq_some h3

lemma mem_ruleRefs_of_redirect (m : MappingRule) (r : String) :
    m.value_redirect = some r → r ∈ ruleRefs m := by
  intro h
  unfold ruleRefs
  rw [h]
  simp

lemma mem_ruleRefs_of_constraint (m : MappingRule) (r : String) :
    m.constraint = some r → r ∈ ruleRefs m := by
  intro h
  unfold ruleRefs
  rw [h]
  simp

lemma mem_ruleRefs_of_cond_redirect (m : MappingRule) (c : Condition) (r : String)
    (hc : c ∈ m.conditions.getD []) : c.value_redirect = some r → r ∈ ruleRefs m := by
  intro h
  unfold ruleRefs
  refine List.mem_append.mpr (Or.inr (List.mem_flatten.mpr ⟨condRefs c, ?_, ?_⟩))
  · exact List.mem_map_of_mem _ hc
  · unfold condRefs
    rw [h]
    simp

lemma effRedirect_mem_ruleRefs (m : MappingRule) (copt : Option Condition) (r : String)
    (hc : ∀ c, copt = some c → c ∈ m.conditions.getD []) :
    effRedirect copt m = some r → r ∈ ruleRefs m := by
  intro h
  rcases copt with _ | c
  · exact mem_ruleRefs_of_redirect m r h
  · simp only [effRedirect] at h
    rcases hvr : c.value_redirect with _ | r0
    · rw [hvr] at h
      exact mem_ruleRefs_of_redirect m r h
    · rw [hvr] at h
      exact mem_ruleRefs_of_cond_redirect m c r (hc c rfl) (hvr.trans h)

lemma mem_dpsRefs (d : DpsConfig) (m : MappingRule) (hm : m ∈ d.mapping.getD [])
    (r : String) (hr : r ∈ ruleRefs m) : r ∈ dpsRefs d := by
  unfold dpsRefs
  exact List.mem_flatten.mpr ⟨ruleRefs m, List.mem_map_of_mem _ hm, hr⟩

lemma pyDivV_no_fuel (a b : PVal) : pyDivV a b ≠ .error .fuelExhausted := by
  rcases ha : numQ a with _ | x <;> rcases hb : numQ b with _ | y <;>
    simp [pyDivV, ha, hb]
  by_cases hz : qIsZero y <;> simp [hz]

lemma pyMulV_no_fuel (a b : PVal) : pyMulV a b ≠ .error .fuelExhausted := by
  rcases ha : numQ a with _ | x <;> rcases hb : numQ b with _ | y <;>
    rcases a with b1 | n1 | q1 | s1 <;> rcases b with b2 | n2 | q2 | s2 <;>
    simp [pyMulV, ha, hb, numQ] at * <;>
    split <;> simp

lemma stepApply_no_fuel (s r : PVal) : stepApply s r ≠ .error .fuelExhausted := by
  rcases hs : numQ s with _ | sq <;> rcases hr : numQ r with _ | rq <;>
    simp [stepApply, hs, hr]
  by_cases hz : qIsZero sq <;> simp [hz]
  exact pyMulV_no_fuel _ _

lemma mapScaleResult_no_fuel (s : PVal) (r : Option PVal) :
    mapScaleResult s r ≠ .error .fuelExhausted := by
  rcases r with _ | r0
  · simp [mapScaleResult]
  · simp only [mapScaleResult]
    by_cases hb : !(pyEq s (.pint 1)) && isNum r0
    · rw [if_pos hb]
      intro h
      rcases hdv : pyDivV r0 s with err | v
      · rw [hdv] at h
        simp [Except.map] at h
        exact pyDivV_no_fuel r0 s (hdv.trans (by rw [h]))
      · rw [hdv] at h
        simp [Except.map] at h
    · rw [if_neg hb]
      simp

lemma readCondResolve_fst (e : EntityConfig) (m : MappingRule) (dev : Device) (s : PVal)
    (r : Option PVal) (rsr : Option String × PVal × Option PVal) :
    readCondResolve e m dev s r = some rsr →
    rsr.1 = effRedirect (activeCondition e m dev) m := by
  intro h
  rcases hac : activeCondition e m dev with _ | c <;>
    simp only [readCondResolve, hac] at h ⊢
  · rw [← Option.some_inj.mp h]
    rfl
  · by_cases hiv : c.invalid
    · rw [if_pos hiv] at h
      exact Option.noConfusion h
    · rw [if_neg hiv] at h
      rw [← Option.some_inj.mp h]

lemma mapFromDps_no_fuel (fuel : Nat) (e : EntityConfig) (d : DpsConfig)
    (value0 : Option PVal) (dev : Device)
    (hsafe : ∀ nm ∈ dpsRefs d, ∀ q, find_dps e nm = some q →
      mapFromDps fuel e q (dev q.id) dev ≠ .error .fuelExhausted) :
    mapFromDps (fuel + 1) e d value0 dev ≠ .error .fuelExhausted := by
  simp only [mapFromDps]
  rcases hm : findMapForDps d (stringifiedValue d value0) with _ | m
  · simp
  · have hmm : m ∈ d.mapping.getD [] := findMapForDps_mem _ _ _ hm
    rcases hrc : readCondResolve e m dev
        (if isNum (m.scale.getD (.pint 1)) then m.scale.getD (.pint 1) else .pint 1)
        (match m.value with | some v => some v | none => stringifiedValue d value0)
      with _ | rsr
    · simp [hrc]
    · simp only [hrc]
      rcases hrd : rsr.1 with _ | rname
      · simp only [hrd]
        exact mapScaleResult_no_fuel _ _
      · have hred : effRedirect (activeCondition e m dev) m = some rname :=
          (readCondResolve_fst e m dev _ _ rsr hrc) ▸ hrd
        have hrr : rname ∈ ruleRefs m :=
          effRedirect_mem_ruleRefs m (activeCondition e m dev) rname
            (fun c hc => activeCondition_mem e m dev c hc) hred
        simp only [hrd]
        rcases hfd : find_dps e rname with _ | rd
        · simp [hfd]
        · simp only [hfd]
          exact hsafe rname (mem_dpsRefs d m hmm rname hrr) rd hfd

lemma condSideEffect_no_fuel (recurse : DpsConfig → PVal → Except PyErr Dict)
    (e : EntityConfig) (d : DpsConfig) (m : MappingRule) (c : Condition)
    (hm : m ∈ d.mapping.getD [])
    (hsafe : ∀ nm ∈ dpsRefs d, ∀ q, find_dps e nm = some q →
      ∀ v2, recurse q v2 ≠ .error .fuelExhausted) :
    condSideEffect recurse e m c ≠ .error .fuelExhausted := by
  unfold condSideEffect
  rcases hcs : m.constraint with _ | cname <;> simp only [hcs]
  · simp
  · rcases hfd : find_dps e cname with _ | cd <;> simp only [hfd]
    · simp
    · rcases hdv : c.dps_val with _ | dv <;> simp only [hdv]
      · simp
      · exact hsafe cname
          (mem_dpsRefs d m hm cname (mem_ruleRefs_of_constraint m cname hcs)) cd hfd dv

lemma rangeCheck_no_fuel (d : DpsConfig) (v : PVal) (r : Option (PVal × PVal)) (res : PVal) :
    rangeCheck d v r res ≠ .error .fuelExhausted := by
  rcases r with _ | lohi
  · simp [rangeCheck]
  · simp only [rangeCheck]
    rcases h1 : pyLt res lohi.1 with _ | b1
    · simp
    · rcases b1
      · rcases h2 : pyLt lohi.2 res with _ | b2
        · simp
        · rcases b2 <;> simp
      · simp

lemma coerceToType_no_fuel (t : PType) (v : PVal) :
    coerceToType t v ≠ .error .fuelExhausted := by
  intro h
  rcases coerceToType_error_shape t v .fuelExhausted h with h1 | h1 <;> exact PyErr.noConfusion h1

lemma gvtsFinish_no_fuel (scale : PVal) (step2 : Option PVal) (result1 : PVal) (dmap : Dict) :
    gvtsFinish scale step2 result1 dmap ≠ .error .fuelExhausted := by
  simp only [gvtsFinish]
  by_cases hb : !(pyEq scale (.pint 1)) && isNum result1
  · simp only [hb, if_true]
    rcases hmu : pyMulV result1 scale with err | result2
    · simp only [hmu]
      have := pyMulV_no_fuel result1 scale
      rw [hmu] at this
      intro h
      injection h with h2
      exact this (by rw [h2])
    · simp only [hmu]
      rcases step2 with _ | sv
      · simp
      · by_cases hn : isNum result2
        · simp only [hn, if_true]
          rcases hst : stepApply sv result2 with err | r3
          · simp only [hst]
            have := stepApply_no_fuel sv result2
            rw [hst] at this
            intro h
            injection h with h2
            exact this (by rw [h2])
          · simp [hst]
        · simp [hn]
  · simp only [hb, Bool.false_eq_true, if_false]
    rcases step2 with _ | sv
    · simp
    · by_cases hn : isNum result1
      · simp only [hn, if_true]
        rcases hst : stepApply sv result1 with err | r3
        · simp only [hst]
          have := stepApply_no_fuel sv result1
          rw [hst] at this
          intro h
          injection h with h2
          exact this (by rw [h2])
        · simp [hst]
      · simp [hn]

lemma gvtsPre_no_fuel (recurse : DpsConfig → PVal → Except PyErr Dict) (e : EntityConfig)
    (d : DpsConfig) (dev : Device) (value : PVal)
    (hsafe : ∀ nm ∈ dpsRefs d, ∀ q, find_dps e nm = some q →
      ∀ v2, recurse q v2 ≠ .error .fuelExhausted) :
    gvtsPre recurse e d dev value ≠ .error .fuelExhausted := by
  simp only [gvtsPre]
  rcases hm : findMapForValue d value with _ | m
  · simp
  · have hmm : m ∈ d.mapping.getD [] := findMapForValue_mem _ _ _ hm
    simp only [hm]
    rcases hac : activeCondition e m dev with _ | c
    · simp only [hac, effRedirect]
      rcases hvr : m.value_redirect with _ | rname
      · simp only [hvr]
        exact gvtsFinish_no_fuel _ _ _ _
      · simp only [hvr]
        rcases hfd : find_dps e rname with _ | rd
        · simp
        · simp only [hfd]
          have hrr := hsafe rname
            (mem_dpsRefs d m hmm rname (mem_ruleRefs_of_redirect m rname hvr)) rd hfd value
          rcases hrec : recurse rd value with err | out
          · simp only [hrec, Except.map]
            rw [hrec] at hrr
            intro h
            injection h with h2
            exact hrr (by rw [h2])
          · simp [hrec, Except.map]
    · have hcmem : ∀ c0, (some c : Option Condition) = some c0 → c0 ∈ m.conditions.getD [] :=
        fun c0 hc0 => activeCondition_mem e m dev c0 (hac.trans (by rw [Option.some_inj.mp hc0]))
      have hredirect : ∀ (dmap : Dict),
          (match effRedirect (some c) m with
            | some rname =>
              (match find_dps e rname with
               | none => (Except.error PyErr.attrError : Except PyErr PreOut)
               | some rd => (recurse rd value).map PreOut.redirected)
            | none =>
              gvtsFinish
                (c.scale.getD (if isNum (m.scale.getD (.pint 1)) then m.scale.getD (.pint 1)
                  else .pint 1))
                (match c.step with
                  | some s => some s
                  | none =>
                    match m.step with
                    | some s => if isNum s then some s else none
                    | none => none)
                (match m.dps_val with | some dv => dv | none => value) dmap) ≠
            .error .fuelExhausted := by
        intro dmap
        rcases hvr : effRedirect (some c) m with _ | rname
        · simp only [hvr]
          exact gvtsFinish_no_fuel _ _ _ _
        · simp only [hvr]
          have hrr0 : rname ∈ ruleRefs m :=
            effRedirect_mem_ruleRefs m (some c) rname hcmem hvr
          rcases hfd : find_dps e rname with _ | rd
          · simp
          · simp only [hfd]
            have hrr := hsafe rname (mem_dpsRefs d m hmm rname hrr0) rd hfd value
            rcases hrec : recurse rd value with err | out
            · simp only [hrec, Except.map]
              rw [hrec] at hrr
              intro h
              injection h with h2
              exact hrr (by rw [h2])
            · simp [hrec, Except.map]
      simp only [hac]
      by_cases hcv : condValueMatches value c
      · simp only [hcv, if_true]
        rcases hse : condSideEffect recurse e m c with err | dmap0
        · simp only [hse]
          have hne := condSideEffect_no_fuel recurse e d m c hmm hsafe
          rw [hse] at hne
          intro h
          injection h with h2
          exact hne (by rw [h2])
        · simp only [hse]
          exact hredirect dmap0
      · simp only [hcv, Bool.false_eq_true, if_false]
        exact hredirect []

lemma getValuesToSet_no_fuel (fuel : Nat) (e : EntityConfig) (d : DpsConfig) (dev : Device)
    (v : PVal)
    (hsafe : ∀ nm ∈ dpsRefs d, ∀ q, find_dps e nm = some q →
      ∀ v2, getValuesToSet fuel e q dev v2 ≠ .error .fuelExhausted) :
    getValuesToSet (fuel + 1) e d dev v ≠ .error .fuelExhausted := by
  simp only [getValuesToSet]
  rcases hp : gvtsPre (fun rd v2 => getValuesToSet fuel e rd dev v2) e d dev v with err | out
  · simp only [hp]
    have hne := gvtsPre_no_fuel _ e d dev v hsafe
    rw [hp] at hne
    intro h
    injection h with h2
    exact hne (by rw [h2])
  · try simp only [hp]
    rcases out with out2 | ⟨dmap, result⟩
    · simp
    · rcases hrc : rangeCheck d v (rangeOf e d dev) result with err | u
      · simp only [hrc]
        have hne := rangeCheck_no_fuel d v (rangeOf e d dev) result
        rw [hrc] at hne
        intro h
        injection h with h2
        exact hne (by rw [h2])
      · simp only [hrc]
        rcases hco : coerceToType d.type result with err | val
        · simp only [hco]
          have hne := coerceToType_no_fuel d.type result
          rw [hco] at hne
          intro h
          injection h with h2
          exact hne (by rw [h2])
        · simp [hco]

/-- C10: when the sibling-reference graph of an entity (value-redirect
targets of rules and conditions, plus constraint properties, resolved by
find_dps) is acyclic -- stated, as is standard for a finite graph,
through a rank function that strictly decreases along every reference
edge -- get_value and get_values_to_set terminate on every snapshot and
requested value: fuel exceeding the property's rank is never exhausted,
even though the source recursion carries no cycle guard. -/
theorem C10_termination_under_acyclic_refs :
    ∀ (e : EntityConfig) (rank : DpsConfig → Nat),
      (∀ d ∈ e.dps, ∀ nm ∈ dpsRefs d, ∀ q, find_dps e nm = some q → rank q < rank d) →
      ∀ (fuel : Nat) (d : DpsConfig), d ∈ e.dps → rank d < fuel →
        ∀ (dev : Device) (v : PVal),
          getValue fuel e d dev ≠ .error .fuelExhausted ∧
            getValuesToSet fuel e d dev v ≠ .error .fuelExhausted := by
  intro e rank href fuel
  induction fuel with
  | zero =>
    intro d hd hlt
    exact absurd hlt (Nat.not_lt_zero _)
  | succ n ih =>
    intro d hd hlt dev v
    have hsafeR : ∀ nm ∈ dpsRefs d, ∀ q, find_dps e nm = some q →
        mapFromDps n e q (dev q.id) dev ≠ .error .fuelExhausted := by
      intro nm hnm q hq
      have hqmem : q ∈ e.dps := List.mem_of_find?_eq_some hq
      have hql : rank q < n := by
        have := href d hd nm hnm q hq
        omega
      exact (ih q hqmem hql dev v).1
    have hsafeW : ∀ nm ∈ dpsRefs d, ∀ q, find_dps e nm = some q →
        ∀ v2, getValuesToSet n e q dev v2 ≠ .error .fuelExhausted := by
      intro nm hnm q hq v2
      have hqmem : q ∈ e.dps := List.mem_of_find?_eq_some hq
      have hql : rank q < n := by
        have := href d hd nm hnm q hq
        omega
      exact (ih q hqmem hql dev v2).2
    exact ⟨mapFromDps_no_fuel n e d (dev d.id) dev hsafeR,
      getValuesToSet_no_fuel n e d dev v hsafeW⟩

/-- C10 witness: a two-property entity whose only reference edge is the
redirect XA to XB, ranked 1 and 0; fuel 2 exceeds XA's rank and neither
the read nor the write runs out of fuel. -/
theorem C10_witness :
    getValue 2 c10ent c10A c10dev ≠ .error .fuelExhausted ∧
      getValuesToSet 2 c10ent c10A c10dev (.pint 5) ≠ .error .fuelExhausted := by
  refine C10_termination_under_acyclic_refs c10ent
    (fun d => if d.name = "XA" then 1 else 0) ?_ 2 c10A (by decide) (by decide) c10dev
    (.pint 5)
  intro d hd nm hnm q hq
  rcases List.mem_cons.mp hd with h | h2
  · subst h
    have h1 : dpsRefs c10A = ["XB"] := rfl
    rw [h1] at hnm
    have h2 : nm = "XB" := by simpa using hnm
    subst h2
    have h3 : find_dps c10ent "XB" = some c10B := by decide
    rw [h3] at hq
    rw [← Option.some_inj.mp hq]
    decide
  · rcases List.mem_cons.mp h2 with h | h3
    · subst h
      have h1 : dpsRefs c10B = [] := rfl
      rw [h1] at hnm
      exact absurd hnm (List.not_mem_nil nm)
    · exact absurd h3 (List.not_mem_nil d)

end TuyaLocal
